import Mathlib

/-!
Verification development for the `hdlparse` Verilog documentation parser
(`hdlparse/verilog_parser.py`).

The development shallowly embeds:
* the fixed grammar table `verilog_tokens` (translated rule by rule from the
  regular expressions in the source),
* the tokenizer engine (the `MiniLexer` class is not part of the sources at
  hand; its scanning loop is modelled from the specification, see `lexRunF`),
* the semantic interpreter `parse_verilog` (translated statement by statement
  from the source), and
* the helper `is_verilog` together with the `os.path.splitext` semantics it
  relies on.

All text is handled as `List Char`; captured groups become `Option String`
values mirroring the optional regex groups.  Only ASCII input is considered,
so the ASCII readings of the character classes in the patterns coincide with
the ones used by the original implementation.
-/

namespace Hdlparse

/-! ## Data model (classes `VerilogParameter`, `VerilogModule`) -/

/-- Embeds the `VerilogParameter` class: parameter and port to a module.
Fields that default to `None` in the constructor are `Option`s. -/
structure VerilogParameter where
  name : String
  mode : Option String
  data_type : Option String
  data_size : Option String
  default_value : Option String
  desc : List String
  deriving Repr, DecidableEq

/-- Embeds the `VerilogModule` class (a `VerilogObject` with
`kind = 'module'`).  `paramsections` and `portsections` are the Python
`dict`s represented as insertion-ordered association lists. -/
structure VerilogModule where
  name : Option String
  kind : String
  generics : List VerilogParameter
  ports : List VerilogParameter
  paramsections : List (Nat × String)
  portsections : List (Nat × String)
  desc : List String
  deriving Repr, DecidableEq

/-! ## Character classes of the patterns (ASCII readings) -/

/-- The character class `\s` of Python regular expressions (ASCII). -/
def isWS (c : Char) : Bool :=
  c = ' ' || c = '\t' || c = '\n' || c = '\r' || c = '\x0b' || c = '\x0c'

/-- The character class `\w` of Python regular expressions (ASCII). -/
def isWordChar (c : Char) : Bool :=
  c.isAlphanum || c = '_'

/-- Length of the maximal whitespace run at the front (a greedy `\s*`). -/
def countWS (s : List Char) : Nat :=
  (s.takeWhile isWS).length

/-- `str.strip()` of Python on ASCII whitespace, as used on metacomment
text before it is attached to a description. -/
def pyStrip (s : String) : String :=
  String.mk (((s.data.dropWhile isWS).reverse.dropWhile isWS).reverse)

/-! ## Matchers for the individual regular expressions of `verilog_tokens`

Each matcher answers, for the pattern it embeds, whether the pattern matches
at the start of the given character list (the scanner cursor), returning the
captured groups and the number of characters consumed.  `prev` is the
character just before the cursor, used by `\b` and by `^` (the patterns are
compiled with `re.MULTILINE`, so `^` holds at the start of the buffer and
right after a newline). -/

/-- Index of the first newline, used for the `(.*)\n` tails (where `.` does
not match a newline). -/
def firstNl (s : List Char) : Option Nat :=
  s.findIdx? (fun c => c = '\n')

/-- Pattern `\bmodule\s*(\w+)\s*` (root state).  Returns the captured name
and the consumed length. -/
def matchModuleDecl (prev : Option Char) (s : List Char) : Option (List Char × Nat) :=
  let boundary := match prev with
    | none => true
    | some c => !(isWordChar c)
  if boundary && ("module".toList.isPrefixOf s) then
    let r1 := s.drop 6
    let w1 := countWS r1
    let r2 := r1.drop w1
    let nm := r2.takeWhile isWordChar
    if nm.length > 0 then
      let w2 := countWS (r2.drop nm.length)
      some (nm, 6 + w1 + nm.length + w2)
    else none
  else none

/-- Pattern `/\*`. -/
def matchBlockOpen (s : List Char) : Option Nat :=
  if ['/', '*'].isPrefixOf s then some 2 else none

/-- Pattern `\*/` (sole rule of the `block_comment` state). -/
def matchBlockClose (s : List Char) : Option Nat :=
  if ['*', '/'].isPrefixOf s then some 2 else none

/-- Pattern `//.*\n`: an ordinary line comment, discarded silently. -/
def matchLineComment (s : List Char) : Option Nat :=
  if ['/', '/'].isPrefixOf s then
    match firstNl (s.drop 2) with
    | some j => some (2 + j + 1)
    | none => none
  else none

/-- Backtracking search for the tail `\s+(.*)\n` of the metacomment
pattern: the greedy `\s+` first takes the whole whitespace run of length
`k` and, as long as no newline remains for `(.*)\n`, gives characters back
one at a time.  Returns the captured group and the consumed length. -/
def tryK : Nat → List Char → Option (List Char × Nat)
  | 0, _ => none
  | (k+1), s =>
    match firstNl (s.drop (k+1)) with
    | some j => some ((s.drop (k+1)).take j, (k+1) + j + 1)
    | none => tryK k s

/-- Pattern `//(?:/<|#+)\s+(.*)\n` (a metacomment).  The alternation tries
`/<` first and otherwise needs at least one `#`. -/
def matchMetacomment (s : List Char) : Option (List Char × Nat) :=
  if ['/', '/'].isPrefixOf s then
    let s1 := s.drop 2
    let markLen : Option Nat :=
      if ['/', '<'].isPrefixOf s1 then some 2
      else
        let h := (s1.takeWhile (fun c => c = '#')).length
        if h > 0 then some h else none
    match markLen with
    | none => none
    | some pl =>
      let s2 := s1.drop pl
      match tryK (countWS s2) s2 with
      | some (title, n2) => some (title, 2 + pl + n2)
      | none => none
  else none

/-- Pattern `//#\s*{{(.*)}}\n` (a section marker).  Since `.` does not
cross the newline, the pattern matches exactly when the rest of the line
ends in `}}`, capturing the text between `{{` and that final `}}`. -/
def matchSectionMeta (s : List Char) : Option (List Char × Nat) :=
  if ['/', '/', '#'].isPrefixOf s then
    let s1 := s.drop 3
    let w := countWS s1
    let s2 := s1.drop w
    if ['\x7b', '\x7b'].isPrefixOf s2 then
      let s3 := s2.drop 2
      match firstNl s3 with
      | some f =>
        if 2 ≤ f && ((s3.drop (f - 2)).take 2 = ['\x7d', '\x7d']) then
          some (s3.take (f - 2), 3 + w + 2 + f + 1)
        else none
      | none => none
    else none
  else none

/-- An ordered alternation `(kw1|kw2|...)\s+`: the first alternative that
matches literally *and* is followed by at least one whitespace character
wins (on a failing `\s+` the regex engine backtracks into the alternation
and tries the next keyword).  Returns the captured keyword and the consumed
length including the whitespace. -/
def matchKwWs (alts : List (List Char)) (s : List Char) : Option (List Char × Nat) :=
  match alts with
  | [] => none
  | a :: rest =>
    if a.isPrefixOf s then
      let w := countWS (s.drop a.length)
      if w > 0 then some (a, a.length + w) else matchKwWs rest s
    else matchKwWs rest s

/-- One bracketed range `\[[^]]+\]`: a `[`, at least one character other
than `]` (newlines included), then `]`.  The captured text keeps the
brackets. -/
def matchBracket (s : List Char) : Option (List Char × Nat) :=
  match s with
  | '[' :: rest =>
    let inner := rest.takeWhile (fun c => !(c = ']'))
    if inner.length > 0 && inner.length < rest.length then
      some ('[' :: inner ++ [']'], inner.length + 2)
    else none
  | _ => none

/-- The repetition `(\[[^]]+\])+` with explicit fuel (each step consumes at
least three characters, so `s.length` is always enough fuel).  Returns the
concatenated captured text and the consumed length. -/
def matchBracketsAux : Nat → List Char → List Char × Nat
  | 0, _ => ([], 0)
  | (fuel+1), s =>
    match matchBracket s with
    | some (g, n) =>
      let (g2, n2) := matchBracketsAux fuel (s.drop n)
      (g ++ g2, n + n2)
    | none => ([], 0)

/-- Optional repetition `((\[[^]]+\])+)?` as it appears in the port rules:
`none` when no range is present. -/
def matchBracketsOpt (s : List Char) : Option (List Char) × Nat :=
  let (g, n) := matchBracketsAux s.length s
  if n = 0 then (none, 0) else (some g, n)

/-- The keyword set of the `parameter` pattern, in the order of the
alternation `(signed|integer|realtime|real|time|logic)`. -/
def paramKwAlts : List (List Char) :=
  ["signed", "integer", "realtime", "real", "time", "logic"].map String.toList

/-- The direction keywords `(input|inout|output)`. -/
def dirAlts : List (List Char) :=
  ["input", "inout", "output"].map String.toList

/-- The net-type keywords
`(reg|supply0|supply1|tri|triand|trior|tri0|tri1|wire|wand|wor|logic)`
in alternation order (`tri` is tried before `triand`, `trior`, `tri0`,
`tri1`; with a failing `\s+` the engine falls through to them). -/
def netTypeAlts : List (List Char) :=
  ["reg", "supply0", "supply1", "tri", "triand", "trior",
   "tri0", "tri1", "wire", "wand", "wor", "logic"].map String.toList

/-- Pattern `parameter\s+(?:(KW)\s+)?(\[[^]]+\])?` — the shared
`verilog_strings['parameter']`; with `leadWS` it carries the `\s*` that the
rule inside the `parameters` state puts in front.  Returns the optional
type keyword and optional range, and the consumed length. -/
def matchParamDecl (leadWS : Bool) (s : List Char) :
    Option ((Option (List Char) × Option (List Char)) × Nat) :=
  let w0 := if leadWS then countWS s else 0
  let s1 := s.drop w0
  if "parameter".toList.isPrefixOf s1 then
    let s2 := s1.drop 9
    let w1 := countWS s2
    if w1 > 0 then
      let s3 := s2.drop w1
      let (kw, n3) := match matchKwWs paramKwAlts s3 with
        | some (k, n) => (some k, n)
        | none => (none, 0)
      let s4 := s3.drop n3
      let (rg, n4) := match matchBracket s4 with
        | some (g, n) => (some g, n)
        | none => (none, 0)
      some ((kw, rg), w0 + 9 + w1 + n3 + n4)
    else none
  else none

/-- Pattern `\s*(\w+)\s*=\s*((?:(?!\/\/|[,)]).)+)` — a `name = value`
parameter item.  The default-value capture takes characters (not newlines)
up to the first comma, closing parenthesis, or `//`. -/
def valTake : List Char → List Char
  | [] => []
  | '/' :: '/' :: _ => []
  | c :: rest =>
    if c = ',' || c = ')' || c = '\n' then []
    else c :: valTake rest

/-- The `param_item` rule; returns name, raw default value and consumed
length. -/
def matchParamItem (s : List Char) : Option ((List Char × List Char) × Nat) :=
  let w0 := countWS s
  let s1 := s.drop w0
  let nm := s1.takeWhile isWordChar
  if nm.length > 0 then
    let s2 := s1.drop nm.length
    let w1 := countWS s2
    match s2.drop w1 with
    | '=' :: s4 =>
      let w2 := countWS s4
      let v := valTake (s4.drop w2)
      if v.length > 0 then
        some ((nm, v), w0 + nm.length + w1 + 1 + w2 + v.length)
      else none
    | _ => none
  else none

/-- Pattern `\s*(\w+)\s*,?` — a bare port identifier. -/
def matchPortParam (s : List Char) : Option (List Char × Nat) :=
  let w0 := countWS s
  let s1 := s.drop w0
  let nm := s1.takeWhile isWordChar
  if nm.length > 0 then
    let w1 := countWS (s1.drop nm.length)
    let comma := match (s1.drop (nm.length + w1)).head? with
      | some ',' => 1
      | _ => 0
    some (nm, w0 + nm.length + w1 + comma)
  else none

/-- The captured groups `groups[0:4]` of the two port-opener rules. -/
structure PortGroups where
  dir : List Char
  netType : Option (List Char)
  signedKw : Option (List Char)
  vecRange : Option (List Char)

/-- Pattern
`^[\(\s]*(input|inout|output)\s+(?:var\s+)?(?:(NT)\s+)?(?:(signed)\s+)?((\[[^]]+\])+)?`
— the port opener of the `module` state, anchored at a line start. -/
def matchPortDeclModule (prev : Option Char) (s : List Char) :
    Option (PortGroups × Nat) :=
  let lineStart := match prev with
    | none => true
    | some c => c = '\n'
  if lineStart then
    let w0 := (s.takeWhile (fun c => c = '(' || isWS c)).length
    let s1 := s.drop w0
    match matchKwWs dirAlts s1 with
    | none => none
    | some (dir, n1) =>
      let s2 := s1.drop n1
      let nVar := match matchKwWs ["var".toList] s2 with
        | some (_, n) => n
        | none => 0
      let s3 := s2.drop nVar
      let (nt, n3) := match matchKwWs netTypeAlts s3 with
        | some (k, n) => (some k, n)
        | none => (none, 0)
      let s4 := s3.drop n3
      let (sg, n4) := match matchKwWs ["signed".toList] s4 with
        | some (k, n) => (some k, n)
        | none => (none, 0)
      let s5 := s4.drop n4
      let (rg, n5) := matchBracketsOpt s5
      some (⟨dir, nt, sg, rg⟩, w0 + n1 + nVar + n3 + n4 + n5)
  else none

/-- Pattern
`\s*(input|inout|output)\s+(?:var\s+)?(?:(NT)\s+)?(signed)?\s*((\[[^]]+\])+)?`
— the re-entrant port opener of the `module_port` state (here `(signed)?`
needs no trailing whitespace of its own). -/
def matchPortDeclPort (s : List Char) : Option (PortGroups × Nat) :=
  let w0 := countWS s
  let s1 := s.drop w0
  match matchKwWs dirAlts s1 with
  | none => none
  | some (dir, n1) =>
    let s2 := s1.drop n1
    let nVar := match matchKwWs ["var".toList] s2 with
      | some (_, n) => n
      | none => 0
    let s3 := s2.drop nVar
    let (nt, n3) := match matchKwWs netTypeAlts s3 with
      | some (k, n) => (some k, n)
      | none => (none, 0)
    let s4 := s3.drop n3
    let (sg, n4) :=
      if "signed".toList.isPrefixOf s4 then (some ("signed".toList), 6)
      else ((none : Option (List Char)), 0)
    let s5 := s4.drop n4
    let w5 := countWS s5
    let (rg, n6) := matchBracketsOpt (s5.drop w5)
    some (⟨dir, nt, sg, rg⟩, w0 + n1 + nVar + n3 + n4 + w5 + n6)

/-- Pattern `endmodule`. -/
def matchEndmodule (s : List Char) : Option Nat :=
  if "endmodule".toList.isPrefixOf s then some 9 else none

/-- Pattern `,` (discarded). -/
def matchComma (s : List Char) : Option Nat :=
  match s.head? with
  | some ',' => some 1
  | _ => none

/-- Pattern `[);]` (discarded, pops the state). -/
def matchPopChar (s : List Char) : Option Nat :=
  match s.head? with
  | some ')' => some 1
  | some ';' => some 1
  | _ => none

/-! ## Events, states and the tokenizer engine -/

/-- The token events `(action, groups)` produced by the lexer, with the
group tuples of each action given their concrete shapes.  Matches with an
action of `None` produce no event (they only advance the cursor). -/
inductive Event where
  | module (name : String)
  | block_comment
  | end_comment
  | metacomment (text : String)
  | section_all (title : String)
  | section_param (title : String)
  | section_port (title : String)
  | parameter_start (netType : Option String) (vecRange : Option String)
  | param_item (name : String) (defaultValue : String)
  | module_port_start (mode : String) (netType : Option String)
      (signedKw : Option String) (vecRange : Option String)
  | port_param (name : String)
  | end_module
  deriving Repr, DecidableEq

/-- The five scanner states of `verilog_tokens`. -/
inductive LexState where
  | root
  | moduleSt
  | parametersSt
  | modulePortSt
  | blockCommentSt
  deriving Repr, DecidableEq

/-- A rule's state transition: stay, push a named state, or pop. -/
inductive Trans where
  | stay
  | push (st : LexState)
  | pop
  deriving Repr, DecidableEq

/-- Turns the four port-opener groups into the `module_port_start` event. -/
def portEvent (g : PortGroups) : Event :=
  Event.module_port_start (String.mk g.dir) (g.netType.map String.mk)
    (g.signedKw.map String.mk) (g.vecRange.map String.mk)

/-- The ordered rule list of the `root` state, first match wins. -/
def ruleRoot (prev : Option Char) (s : List Char) :
    Option (Option Event × Trans × Nat) :=
  ((matchModuleDecl prev s).map fun (nm, n) =>
    (some (Event.module (String.mk nm)), Trans.push LexState.moduleSt, n)) <|>
  ((matchBlockOpen s).map fun n =>
    (some Event.block_comment, Trans.push LexState.blockCommentSt, n)) <|>
  ((matchMetacomment s).map fun (t, n) =>
    (some (Event.metacomment (String.mk t)), Trans.stay, n)) <|>
  ((matchLineComment s).map fun n =>
    ((none : Option Event), Trans.stay, n))

/-- The ordered rule list of the `module` state. -/
def ruleModule (prev : Option Char) (s : List Char) :
    Option (Option Event × Trans × Nat) :=
  ((matchParamDecl false s).map fun ((kw, rg), n) =>
    (some (Event.parameter_start (kw.map String.mk) (rg.map String.mk)),
     Trans.push LexState.parametersSt, n)) <|>
  ((matchPortDeclModule prev s).map fun (g, n) =>
    (some (portEvent g), Trans.push LexState.modulePortSt, n)) <|>
  ((matchEndmodule s).map fun n =>
    (some Event.end_module, Trans.pop, n)) <|>
  ((matchBlockOpen s).map fun n =>
    (some Event.block_comment, Trans.push LexState.blockCommentSt, n)) <|>
  ((matchSectionMeta s).map fun (t, n) =>
    (some (Event.section_all (String.mk t)), Trans.stay, n)) <|>
  ((matchLineComment s).map fun n =>
    ((none : Option Event), Trans.stay, n))

/-- The ordered rule list of the `parameters` state. -/
def ruleParameters (s : List Char) : Option (Option Event × Trans × Nat) :=
  ((matchParamDecl true s).map fun ((kw, rg), n) =>
    (some (Event.parameter_start (kw.map String.mk) (rg.map String.mk)),
     Trans.stay, n)) <|>
  ((matchParamItem s).map fun ((nm, v), n) =>
    (some (Event.param_item (String.mk nm) (String.mk v)), Trans.stay, n)) <|>
  ((matchSectionMeta s).map fun (t, n) =>
    (some (Event.section_param (String.mk t)), Trans.stay, n)) <|>
  ((matchMetacomment s).map fun (t, n) =>
    (some (Event.metacomment (String.mk t)), Trans.stay, n)) <|>
  ((matchComma s).map fun n => ((none : Option Event), Trans.stay, n)) <|>
  ((matchLineComment s).map fun n => ((none : Option Event), Trans.stay, n)) <|>
  ((matchPopChar s).map fun n => ((none : Option Event), Trans.pop, n))

/-- The ordered rule list of the `module_port` state. -/
def ruleModulePort (s : List Char) : Option (Option Event × Trans × Nat) :=
  ((matchPortDeclPort s).map fun (g, n) =>
    (some (portEvent g), Trans.stay, n)) <|>
  ((matchPortParam s).map fun (nm, n) =>
    (some (Event.port_param (String.mk nm)), Trans.stay, n)) <|>
  ((matchBlockOpen s).map fun n =>
    (some Event.block_comment, Trans.push LexState.blockCommentSt, n)) <|>
  ((matchPopChar s).map fun n => ((none : Option Event), Trans.pop, n)) <|>
  ((matchSectionMeta s).map fun (t, n) =>
    (some (Event.section_port (String.mk t)), Trans.stay, n)) <|>
  ((matchMetacomment s).map fun (t, n) =>
    (some (Event.metacomment (String.mk t)), Trans.stay, n)) <|>
  ((matchLineComment s).map fun n => ((none : Option Event), Trans.stay, n))

/-- The sole rule of the `block_comment` state. -/
def ruleBlockComment (s : List Char) : Option (Option Event × Trans × Nat) :=
  (matchBlockClose s).map fun n => (some Event.end_comment, Trans.pop, n)

/-- First matching rule of the active state at the cursor. -/
def stepState (st : LexState) (prev : Option Char) (s : List Char) :
    Option (Option Event × Trans × Nat) :=
  match st with
  | LexState.root => ruleRoot prev s
  | LexState.moduleSt => ruleModule prev s
  | LexState.parametersSt => ruleParameters s
  | LexState.modulePortSt => ruleModulePort s
  | LexState.blockCommentSt => ruleBlockComment s

/-- Applies a rule's transition to the state stack (top of stack at the
head; the stack starts as `[root]` and, the bottom state having no pop
rule, never underflows). -/
def applyTrans (stack : List LexState) : Trans → List LexState
  | Trans.stay => stack
  | Trans.push st => st :: stack
  | Trans.pop => stack.tail

/-- Modelled from the spec: the scanning loop of the tokenizer engine
(class `MiniLexer`, whose code is not among the sources at hand).  At the
cursor the ordered rules of the top-of-stack state are tried and the first
match wins; the cursor advances past the matched text, the event is emitted
when the rule carries an action, and the transition is applied.  When no
rule matches, the cursor advances by exactly one character and nothing is
emitted, which bounds the number of steps by the input length; `fuel` makes
that bound explicit (one unit per step suffices, every step consumes at
least one character). -/
def lexRunF : Nat → Option Char → List LexState → List Char → List Event
  | 0, _, _, _ => []
  | _+1, _, _, [] => []
  | (fuel+1), prev, stack, c :: rest =>
    match stepState (stack.headD LexState.root) prev (c :: rest) with
    | some (evOpt, tr, n) =>
      let m := max n 1
      let prev2 := ((c :: rest).drop (m - 1)).head?
      let evs := lexRunF fuel prev2 (applyTrans stack tr) ((c :: rest).drop m)
      match evOpt with
      | some e => e :: evs
      | none => evs
    | none => lexRunF fuel (some c) stack rest

/-- The token-event stream of a text buffer: the scan starts in state
`root` with the cursor at the beginning. -/
def lexRun (text : String) : List Event :=
  lexRunF text.data.length none [LexState.root] text.data

/-! ## The semantic interpreter (`parse_verilog`) -/

/-- The three-way `last_item` back-reference of `parse_verilog`: Python
keeps a reference to the object a later metacomment is appended to; the
embedding tags the owning slot instead (the last appended generic, by
index, or the port-map entry, by key).  Appends through a reference into an
accumulator that has since been re-created are invisible in the output in
Python and are no-ops here (`updIdx`/`updKey` leave a missing slot
unchanged). -/
inductive LastItem where
  | noItem
  | genericIdx (i : Nat)
  | portKey (k : String)
  deriving Repr, DecidableEq

/-- Replace the element at an index, leaving the list unchanged when the
index is out of range. -/
def updIdx (l : List VerilogParameter) (i : Nat)
    (f : VerilogParameter → VerilogParameter) : List VerilogParameter :=
  match l, i with
  | [], _ => []
  | x :: rest, 0 => f x :: rest
  | x :: rest, (j+1) => x :: updIdx rest j f

/-- Update the value stored under a key, leaving the list unchanged when
the key is absent. -/
def updKey (l : List (String × VerilogParameter)) (k : String)
    (f : VerilogParameter → VerilogParameter) : List (String × VerilogParameter) :=
  match l with
  | [] => []
  | (k', v) :: rest =>
    if k' = k then (k', f v) :: rest else (k', v) :: updKey rest k f

/-- The assignment `d[k] = v` of a Python `dict`/`OrderedDict`: an existing
key keeps its position and gets the new value, a new key is appended at the
end. -/
def odInsert {κ β : Type} [DecidableEq κ] (l : List (κ × β)) (k : κ) (v : β) :
    List (κ × β) :=
  match l with
  | [] => [(k, v)]
  | (k', v') :: rest =>
    if k' = k then (k, v) :: rest else (k', v') :: odInsert rest k v

/-- `dict(pairs)` on a list of key/value pairs: successive assignment, so a
later pair with the same key wins while the key keeps its first position. -/
def toDict {κ β : Type} [DecidableEq κ] (l : List (κ × β)) : List (κ × β) :=
  l.foldl (fun acc kv => odInsert acc kv.1 kv.2) []

/-- The accumulator variables of `parse_verilog` (the dead locals `kind`,
`saved_type`, `parameters` and `array_range_start_pos` of the source are
omitted; nothing reads them). -/
structure PState where
  name : Option String
  mode : String
  port_type : String
  port_size : Option String
  param_type : String
  param_size : Option String
  metacomments : List String
  generics : List VerilogParameter
  ports : List (String × VerilogParameter)
  paramsections : List (Nat × String)
  param_index : Nat
  portsections : List (Nat × String)
  port_index : Nat
  last_item : LastItem
  objects : List VerilogModule
  deriving Repr, DecidableEq

/-- The initial values of the accumulator variables. -/
def initState : PState where
  name := none
  mode := "input"
  port_type := "wire"
  port_size := none
  param_type := ""
  param_size := none
  metacomments := []
  generics := []
  ports := []
  paramsections := []
  param_index := 0
  portsections := []
  port_index := 0
  last_item := LastItem.noItem
  objects := []

/-- One iteration of the event loop of `parse_verilog`, translated case by
case from the `if`/`elif` chain of the source. -/
def step (s : PState) : Event → PState
  | Event.metacomment text =>
    let comment := pyStrip text
    match s.last_item with
    | LastItem.noItem => { s with metacomments := s.metacomments ++ [comment] }
    | LastItem.genericIdx i =>
      { s with generics :=
          updIdx s.generics i (fun p => { p with desc := p.desc ++ [comment] }) }
    | LastItem.portKey k =>
      { s with ports :=
          updKey s.ports k (fun p => { p with desc := p.desc ++ [comment] }) }
  | Event.section_all t =>
    { s with paramsections := s.paramsections ++ [(s.param_index, t)],
             portsections := s.portsections ++ [(s.port_index, t)] }
  | Event.section_param t =>
    { s with paramsections := s.paramsections ++ [(s.param_index, t)] }
  | Event.section_port t =>
    { s with portsections := s.portsections ++ [(s.port_index, t)] }
  | Event.module nm =>
    { s with name := some nm, generics := [], ports := [],
             paramsections := [], param_index := 0,
             portsections := [], port_index := 0 }
  | Event.parameter_start netType vecRange =>
    { s with
      param_type := match netType with
        | some t => t
        | none => ""
      param_size := vecRange }
  | Event.param_item nm v =>
    let p : VerilogParameter :=
      { name := nm, mode := some ("param"), data_type := some s.param_type,
        data_size := s.param_size, default_value := some v, desc := [] }
    { s with generics := s.generics ++ [p],
             param_index := s.param_index + 1,
             last_item := LastItem.genericIdx s.generics.length }
  | Event.module_port_start newMode netType signedKw vecRange =>
    let pt := match netType with
      | some t => t
      | none => "wire"
    let pt := match signedKw with
      | some sg => pt ++ " " ++ sg
      | none => pt
    { s with port_type := pt, port_size := vecRange, mode := newMode }
  | Event.port_param nm =>
    let p : VerilogParameter :=
      { name := nm, mode := some s.mode, data_type := some s.port_type,
        data_size := s.port_size, default_value := none, desc := [] }
    { s with ports := odInsert s.ports nm p,
             port_index := s.port_index + 1,
             last_item := LastItem.portKey nm }
  | Event.end_module =>
    let m : VerilogModule :=
      { name := s.name, kind := "module", generics := s.generics,
        ports := s.ports.map Prod.snd,
        paramsections := toDict s.paramsections,
        portsections := toDict s.portsections,
        desc := s.metacomments }
    { s with objects := s.objects ++ [m],
             last_item := LastItem.noItem, metacomments := [] }
  | Event.block_comment => s
  | Event.end_comment => s

/-- Folding the event loop over a token stream and reading off the emitted
records. -/
def interpret (evts : List Event) : List VerilogModule :=
  (evts.foldl step initState).objects

/-- `parse_verilog`: parse a text buffer of Verilog code into the list of
module records. -/
def parse_verilog (text : String) : List VerilogModule :=
  interpret (lexRun text)

/-! ## `is_verilog` and the `os.path.splitext` it uses -/

/-- `str.rfind` of Python: the greatest index holding the character, `-1`
when there is none. -/
def rfindIdx (c : Char) (l : List Char) : Int :=
  l.enum.foldl (fun acc ix => if ix.2 = c then (ix.1 : Int) else acc) (-1)

/-- `os.path.splitext` (POSIX): split at the last dot of the last path
component, unless every character between the component start and that dot
is itself a dot (so that leading dots never begin an extension). -/
def splitext (p : String) : String × String :=
  let l := p.data
  let sepIndex := rfindIdx '/' l
  let dotIndex := rfindIdx '.' l
  if sepIndex < dotIndex then
    let d := dotIndex.toNat
    let start := (sepIndex + 1).toNat
    if ((l.take d).drop start).any (fun c => !(c = '.')) then
      (String.mk (l.take d), String.mk (l.drop d))
    else (p, "")
  else (p, "")

/-- `str.lower()` on the character list of a string (on the ASCII-only
strings the comparison set consists of, `Char.toLower` agrees with the
Python lowercasing). -/
def pyLower (s : String) : String :=
  String.mk (s.data.map Char.toLower)

/-- `is_verilog`: identify a file as Verilog by its extension
(`os.path.splitext(fname)[1].lower() in ('.vlog', '.v')`). -/
def is_verilog (fname : String) : Bool :=
  [".vlog", ".v"].contains (pyLower (splitext fname).2)

/-! ## Auxiliary observers and lemmas -/

/-- First value stored under a key in an association list. -/
def lookupKey {κ β : Type} [DecidableEq κ] (l : List (κ × β)) (k : κ) : Option β :=
  match l with
  | [] => none
  | (k', v) :: rest => if k' = k then some v else lookupKey rest k

/-- Number of `end_module` events in a token stream — one is produced per
`endmodule` keyword tokenized while a module is open, so this counts the
syntactically closed `module…endmodule` blocks of the input. -/
def countEndModule (evts : List Event) : Nat :=
  evts.countP (fun e => match e with
    | Event.end_module => true
    | _ => false)

/-- First-occurrence deduplication of a list of names, keeping the position
of the first occurrence of each name. -/
def firstOcc (l : List String) : List String :=
  l.foldl (fun acc n => if n ∈ acc then acc else acc ++ [n]) []

/-- Ghost observer of the event stream: the `port_param` names seen since
the most recent `module` event, snapshotted at each `end_module` — it
mirrors exactly the points at which `parse_verilog` resets and extends the
`ports` accumulator. -/
def portNamesStep (g : List String × List (List String)) (e : Event) :
    List String × List (List String) :=
  match e with
  | Event.module _ => ([], g.2)
  | Event.port_param n => (g.1 ++ [n], g.2)
  | Event.end_module => (g.1, g.2 ++ [g.1])
  | _ => g

/-- The per-module lists of `port_param` names of a token stream. -/
def modulePortNameLists (evts : List Event) : List (List String) :=
  (evts.foldl portNamesStep ([], [])).2

theorem odInsert_map_fst {κ β : Type} [DecidableEq κ] (l : List (κ × β)) (k : κ) (v : β) :
    (odInsert l k v).map Prod.fst =
      if k ∈ l.map Prod.fst then l.map Prod.fst else l.map Prod.fst ++ [k] := by
  induction l with
  | nil => simp [odInsert]
  | cons kv rest ih =>
    obtain ⟨k', v'⟩ := kv
    by_cases h : k' = k
    · subst h
      simp [odInsert]
    · simp only [odInsert, if_neg h, List.map_cons]
      rw [ih]
      by_cases hm : k ∈ rest.map Prod.fst
      · simp [hm, Ne.symm h]
      · simp [hm, Ne.symm h]

theorem odInsert_length_le {κ β : Type} [DecidableEq κ] (l : List (κ × β)) (k : κ) (v : β) :
    (odInsert l k v).length ≤ l.length + 1 := by
  induction l with
  | nil => simp [odInsert]
  | cons kv rest ih =>
    obtain ⟨k', v'⟩ := kv
    by_cases h : k' = k
    · simp [odInsert, h]
    · simp only [odInsert, if_neg h, List.length_cons]
      omega

theorem odInsert_mem {κ β : Type} [DecidableEq κ] (l : List (κ × β)) (k : κ) (v : β) :
    ∀ kv ∈ odInsert l k v, kv ∈ l ∨ kv = (k, v) := by
  induction l with
  | nil => simp [odInsert]
  | cons kv0 rest ih =>
    obtain ⟨k', v'⟩ := kv0
    intro kv hkv
    by_cases h : k' = k
    · simp [odInsert, h] at hkv
      rcases hkv with h1 | h1
      · exact Or.inr h1
      · exact Or.inl (List.mem_cons_of_mem _ h1)
    · simp [odInsert, h] at hkv
      rcases hkv with h1 | h1
      · exact Or.inl (by simp [h1])
      · rcases ih kv h1 with h2 | h2
        · exact Or.inl (List.mem_cons_of_mem _ h2)
        · exact Or.inr h2

theorem lookupKey_odInsert_self {κ β : Type} [DecidableEq κ] (l : List (κ × β)) (k : κ) (v : β) :
    lookupKey (odInsert l k v) k = some v := by
  induction l with
  | nil => simp [odInsert, lookupKey]
  | cons kv rest ih =>
    obtain ⟨k', v'⟩ := kv
    by_cases h : k' = k
    · subst h
      simp [odInsert, lookupKey]
    · simp [odInsert, lookupKey, h, ih]

theorem lookupKey_updKey_self (l : List (String × VerilogParameter)) (k : String)
    (f : VerilogParameter → VerilogParameter) :
    lookupKey (updKey l k f) k = (lookupKey l k).map f := by
  induction l with
  | nil => simp [updKey, lookupKey]
  | cons kv rest ih =>
    obtain ⟨k', v'⟩ := kv
    by_cases h : k' = k
    · subst h
      simp [updKey, lookupKey]
    · simp [updKey, lookupKey, h, ih]

theorem updKey_map_fst (l : List (String × VerilogParameter)) (k : String)
    (f : VerilogParameter → VerilogParameter) :
    (updKey l k f).map Prod.fst = l.map Prod.fst := by
  induction l with
  | nil => simp [updKey]
  | cons kv rest ih =>
    obtain ⟨k', v'⟩ := kv
    by_cases h : k' = k <;> simp [updKey, h, ih]

theorem updKey_length (l : List (String × VerilogParameter)) (k : String)
    (f : VerilogParameter → VerilogParameter) :
    (updKey l k f).length = l.length := by
  have h := congrArg List.length (updKey_map_fst l k f)
  simpa using h

theorem toDict_append_single {κ β : Type} [DecidableEq κ] (l : List (κ × β)) (k : κ) (v : β) :
    toDict (l ++ [(k, v)]) = odInsert (toDict l) k v := by
  simp [toDict, List.foldl_append]

theorem updKey_desc_names (l : List (String × VerilogParameter)) (k : String)
    (c : String) (hB : ∀ kv ∈ l, kv.2.name = kv.1) :
    ∀ kv ∈ updKey l k (fun p => { p with desc := p.desc ++ [c] }),
      kv.2.name = kv.1 := by
  induction l with
  | nil => simp [updKey]
  | cons kv0 rest ih =>
    obtain ⟨k', v'⟩ := kv0
    have hv' : v'.name = k' := hB (k', v') (by simp)
    have hrest : ∀ kv ∈ rest, kv.2.name = kv.1 := fun kv hkv =>
      hB kv (List.mem_cons_of_mem _ hkv)
    intro kv hkv
    by_cases h : k' = k
    · simp [updKey, h] at hkv
      rcases hkv with h1 | h1
      · subst h
        simp [h1, hv']
      · exact hrest kv h1
    · simp [updKey, h] at hkv
      rcases hkv with h1 | h1
      · simp [h1, hv']
      · exact ih hrest kv h1

theorem step_objects_length (s : PState) (e : Event) :
    (step s e).objects.length = s.objects.length +
      (match e with
        | Event.end_module => 1
        | _ => 0) := by
  cases e <;> try simp [step]
  case metacomment t => cases s.last_item <;> simp [step]

theorem foldl_objects_length (evts : List Event) : ∀ s : PState,
    (evts.foldl step s).objects.length = s.objects.length + countEndModule evts := by
  induction evts with
  | nil => intro s; simp [countEndModule]
  | cons e rest ih =>
    intro s
    rw [List.foldl_cons, ih (step s e), step_objects_length s e]
    unfold countEndModule
    rw [List.countP_cons]
    cases e <;> simp_arith

theorem step_port_bound (s : PState) (e : Event)
    (h : s.ports.length ≤ s.port_index) :
    (step s e).ports.length ≤ (step s e).port_index := by
  cases e with
  | port_param n =>
    have h1 := odInsert_length_le s.ports n
      { name := n, mode := some s.mode, data_type := some s.port_type,
        data_size := s.port_size, default_value := none, desc := [] }
    simp only [step]
    omega
  | module nm => simp [step]
  | metacomment t =>
    cases hlast : s.last_item with
    | portKey k => simpa [step, hlast, updKey_length] using h
    | noItem => simpa [step, hlast] using h
    | genericIdx i => simpa [step, hlast] using h
  | _ => simpa [step] using h

theorem foldl_port_bound (evts : List Event) : ∀ s : PState,
    s.ports.length ≤ s.port_index →
    (evts.foldl step s).ports.length ≤ (evts.foldl step s).port_index := by
  induction evts with
  | nil => exact fun s h => h
  | cons e rest ih =>
    intro s h
    exact ih (step s e) (step_port_bound s e h)

theorem firstOcc_append_single (cur : List String) (n : String) :
    firstOcc (cur ++ [n]) =
      if n ∈ firstOcc cur then firstOcc cur else firstOcc cur ++ [n] := by
  simp [firstOcc, List.foldl_append]

theorem firstOcc_aux_nodup (l : List String) : ∀ acc : List String, acc.Nodup →
    (l.foldl (fun acc n => if n ∈ acc then acc else acc ++ [n]) acc).Nodup := by
  induction l with
  | nil => exact fun acc h => h
  | cons n rest ih =>
    intro acc h
    rw [List.foldl_cons]
    apply ih
    by_cases hm : n ∈ acc
    · simpa [hm] using h
    · simp [hm, List.nodup_append, h]

theorem firstOcc_nodup (l : List String) : (firstOcc l).Nodup :=
  firstOcc_aux_nodup l [] (by simp)

theorem c4_fold (evts : List Event) : ∀ (s : PState) (cu : List String × List (List String)),
    s.ports.map Prod.fst = firstOcc cu.1 →
    (∀ kv ∈ s.ports, kv.2.name = kv.1) →
    s.objects.map (fun m => m.ports.map VerilogParameter.name) = cu.2.map firstOcc →
    ((evts.foldl step s).ports.map Prod.fst = firstOcc (evts.foldl portNamesStep cu).1 ∧
     (∀ kv ∈ (evts.foldl step s).ports, kv.2.name = kv.1) ∧
     (evts.foldl step s).objects.map (fun m => m.ports.map VerilogParameter.name)
        = (evts.foldl portNamesStep cu).2.map firstOcc) := by
  induction evts with
  | nil => exact fun s cu h1 h2 h3 => ⟨h1, h2, h3⟩
  | cons e rest ih =>
    intro s cu h1 h2 h3
    rw [List.foldl_cons, List.foldl_cons]
    apply ih
    · -- keys stay aligned with the first-occurrence projection
      cases e with
      | port_param n =>
        simp only [step, portNamesStep]
        rw [odInsert_map_fst, h1, firstOcc_append_single]
      | module nm => simp [step, portNamesStep, firstOcc]
      | metacomment t =>
        cases hlast : s.last_item with
        | portKey k => simpa [step, portNamesStep, hlast, updKey_map_fst] using h1
        | noItem => simpa [step, portNamesStep, hlast] using h1
        | genericIdx i => simpa [step, portNamesStep, hlast] using h1
      | section_all t => simpa [step, portNamesStep] using h1
      | section_param t => simpa [step, portNamesStep] using h1
      | section_port t => simpa [step, portNamesStep] using h1
      | parameter_start nt r => simpa [step, portNamesStep] using h1
      | param_item nm v => simpa [step, portNamesStep] using h1
      | module_port_start m nt sg r => simpa [step, portNamesStep] using h1
      | end_module => simpa [step, portNamesStep] using h1
      | block_comment => simpa [step, portNamesStep] using h1
      | end_comment => simpa [step, portNamesStep] using h1
    · -- every stored port object carries its key as its name
      cases e with
      | port_param n =>
        intro kv hkv
        rcases odInsert_mem s.ports n _ kv (by simpa [step] using hkv) with h4 | h4
        · exact h2 kv h4
        · simp [h4]
      | metacomment t =>
        cases hlast : s.last_item with
        | portKey k =>
          intro kv hkv
          exact updKey_desc_names s.ports k (pyStrip t) h2 kv
            (by simpa [step, hlast] using hkv)
        | noItem => simpa [step, hlast] using h2
        | genericIdx i => simpa [step, hlast] using h2
      | module nm => simp [step]
      | section_all t => simpa [step] using h2
      | section_param t => simpa [step] using h2
      | section_port t => simpa [step] using h2
      | parameter_start nt r => simpa [step] using h2
      | param_item nm v => simpa [step] using h2
      | module_port_start m nt sg r => simpa [step] using h2
      | end_module => simpa [step] using h2
      | block_comment => simpa [step] using h2
      | end_comment => simpa [step] using h2
    · -- emitted records stay aligned with the snapshots
      cases e with
      | end_module =>
        have hn : s.ports.map (fun kv => kv.2.name) = s.ports.map Prod.fst :=
          List.map_congr_left (fun kv hkv => h2 kv hkv)
        have hn2 : (s.ports.map Prod.snd).map VerilogParameter.name = firstOcc cu.1 := by
          rw [List.map_map]
          calc s.ports.map (VerilogParameter.name ∘ Prod.snd)
              = s.ports.map (fun kv => kv.2.name) := rfl
            _ = s.ports.map Prod.fst := hn
            _ = firstOcc cu.1 := h1
        simp [step, portNamesStep, h3, hn2]
      | module nm => simpa [step, portNamesStep] using h3
      | port_param n => simpa [step, portNamesStep] using h3
      | metacomment t =>
        cases hlast : s.last_item with
        | portKey k => simpa [step, portNamesStep, hlast] using h3
        | noItem => simpa [step, portNamesStep, hlast] using h3
        | genericIdx i => simpa [step, portNamesStep, hlast] using h3
      | section_all t => simpa [step, portNamesStep] using h3
      | section_param t => simpa [step, portNamesStep] using h3
      | section_port t => simpa [step, portNamesStep] using h3
      | parameter_start nt r => simpa [step, portNamesStep] using h3
      | param_item nm v => simpa [step, portNamesStep] using h3
      | module_port_start m nt sg r => simpa [step, portNamesStep] using h3
      | block_comment => simpa [step, portNamesStep] using h3
      | end_comment => simpa [step, portNamesStep] using h3

theorem lexRunF_nil_eq (f : Nat) (p : Option Char) (st : List LexState) :
    lexRunF f p st [] = [] := by
  cases f <;> rfl

/-- The scan is insensitive to the fuel once the fuel covers the remaining
input: every step consumes at least one character. -/
theorem lexRunF_stable (f1 : Nat) : ∀ (f2 : Nat) (p : Option Char) (st : List LexState)
    (s : List Char), s.length ≤ f1 → s.length ≤ f2 →
    lexRunF f1 p st s = lexRunF f2 p st s := by
  induction f1 with
  | zero =>
    intro f2 p st s h1 _
    cases s with
    | nil => rw [lexRunF_nil_eq, lexRunF_nil_eq]
    | cons c rest => simp at h1
  | succ f ih =>
    intro f2 p st s h1 h2
    cases s with
    | nil => rw [lexRunF_nil_eq, lexRunF_nil_eq]
    | cons c rest =>
      cases f2 with
      | zero => simp at h2
      | succ f2' =>
        simp only [lexRunF]
        cases hstep : stepState (st.headD LexState.root) p (c :: rest) with
        | none =>
          exact ih f2' (some c) st rest (Nat.le_of_succ_le_succ h1)
            (Nat.le_of_succ_le_succ h2)
        | some v =>
          obtain ⟨evOpt, tr, n⟩ := v
          have hm : 1 ≤ max n 1 := Nat.le_max_right n 1
          have hl1 : rest.length + 1 ≤ f + 1 := h1
          have hl2 : rest.length + 1 ≤ f2' + 1 := h2
          have hlen : ((c :: rest).drop (max n 1)).length ≤ f := by
            simp only [List.length_drop, List.length_cons]
            omega
          have hlen2 : ((c :: rest).drop (max n 1)).length ≤ f2' := by
            simp only [List.length_drop, List.length_cons]
            omega
          dsimp only
          rw [ih f2' _ _ _ hlen hlen2]

/-! ## Inputs of the concrete claims -/

/-- A metacomment arriving before any module has opened. -/
def c1input : String := "//# hello\nmodule foo\nendmodule\n"

/-- A typed parameter opener followed by an untyped one. -/
def c2input : String := "module m #(\nparameter integer X = 1,\nparameter Y = 2\n) ();\nendmodule\n"

/-- A module block whose `endmodule` never appears. -/
def c3input : String := "module foo\ninput wire a\n"

/-- Comma-separated bare parameter items after a single typed opener. -/
def c6input : String := "module foo #(\nparameter integer N = 4, M = 8\n) ();\nendmodule\n"

/-- The same port name declared twice, then a section marker. -/
def c10input : String :=
  "module m (\ninput wire a,\ninput wire a\n//# \x7b\x7bGrp\x7d\x7d\n);\nendmodule\n"

/-! ## The claims -/

/-- C1, counterexample: on `c1input` the text `hello` is tokenized as a
metacomment while no module is open (it is the first event of the stream),
yet the module record `foo` carries it in its description — the claim that
such text is never attached to any module record's description is false. -/
theorem c1_counterexample :
    lexRun c1input =
      [Event.metacomment ("hello"), Event.module ("foo"), Event.end_module] ∧
    ∃ m, m ∈ parse_verilog c1input ∧ ("hello") ∈ m.desc := by
  refine ⟨by decide, ⟨⟨some ("foo"), "module", [], [], [], [], [("hello")]⟩, by decide, by decide⟩⟩

/-- C1, amended: metacomment text buffered while no module is open is *not*
discarded on the next `module` event — the `module` event leaves the
buffer untouched — and the buffer is attached as the description of the
next module record emitted at `end_module` (which then clears it). -/
theorem c1_theorem :
    (∀ (s : PState) (nm : String), (step s (Event.module nm)).metacomments = s.metacomments) ∧
    (∀ s : PState, (step s Event.end_module).objects.map VerilogModule.desc
        = s.objects.map VerilogModule.desc ++ [s.metacomments]) ∧
    (∀ s : PState, (step s Event.end_module).metacomments = []) :=
  ⟨fun _ _ => rfl, fun s => by simp [step], fun _ => rfl⟩

/-- C2, counterexample: on `c2input` the second `parameter_start` event has
both capture groups absent, yet the generic `Y` built after it carries the
data type `""` and not the previous sticky value `"integer"` — an absent
capture does not leave the sticky default at its previous value. -/
theorem c2_counterexample :
    (lexRun c2input).filter (fun e => match e with
        | Event.parameter_start _ _ => true
        | _ => false) =
      [Event.parameter_start (some ("integer")) none,
       Event.parameter_start none none] ∧
    (parse_verilog c2input).map
        (fun m => m.generics.map (fun g => (g.name, g.data_type)))
      = [[("X", some ("integer")), ("Y", some (""))]] :=
  ⟨by decide, by decide⟩

/-- C2, amended: `parameter_start` first resets the sticky parameter
type/size to the defaults `""`/none and only then overwrites them with the
captured groups, so an absent capture yields the default and not the
previous sticky value; likewise `module_port_start` resets the sticky port
net-type/size to `"wire"`/none before applying its captures (appending a
captured `signed` to the net type), and the direction always overwrites the
mode. -/
theorem c2_theorem :
    (∀ (s : PState) (nt r : Option String),
        (step s (Event.parameter_start nt r)).param_type = nt.getD ("") ∧
        (step s (Event.parameter_start nt r)).param_size = r) ∧
    (∀ (s : PState) (m : String) (nt sg r : Option String),
        (step s (Event.module_port_start m nt sg r)).port_type
          = (match sg with
              | some x => nt.getD ("wire") ++ " " ++ x
              | none => nt.getD ("wire")) ∧
        (step s (Event.module_port_start m nt sg r)).port_size = r ∧
        (step s (Event.module_port_start m nt sg r)).mode = m) := by
  constructor
  · intro s nt r
    cases nt <;> exact ⟨rfl, rfl⟩
  · intro s m nt sg r
    cases nt <;> cases sg <;> exact ⟨rfl, rfl, rfl⟩

/-- C3: for every input text the number of emitted module records equals
the number of `end_module` events of its token stream — i.e. the number of
`endmodule` keywords tokenized while a module was open, the syntactically
closed `module…endmodule` blocks; and concretely, a module block whose
closing keyword is never tokenized (`c3input`) contributes no record and no
partial artifact. -/
theorem c3_theorem :
    (∀ text : String, (parse_verilog text).length = countEndModule (lexRun text)) ∧
    parse_verilog c3input = [] := by
  constructor
  · intro text
    simpa [parse_verilog, interpret, initState] using
      foldl_objects_length (lexRun text) initState
  · decide

/-- C4: in every emitted module record the port names are exactly the
first-occurrence deduplication of the `port_param` names of its block (the
order of first occurrence in the source), so the port map holds exactly one
entry per name; and a `port_param` for an already-present name keeps the
key order unchanged while the entry now holds the freshly built parameter
(current sticky mode/type/size, empty description). -/
theorem c4_theorem :
    (∀ evts : List Event,
        (interpret evts).map (fun m => m.ports.map VerilogParameter.name)
          = (modulePortNameLists evts).map firstOcc) ∧
    (∀ evts : List Event, ∀ m ∈ interpret evts,
        (m.ports.map VerilogParameter.name).Nodup) ∧
    (∀ (s : PState) (n : String),
        ((step s (Event.port_param n)).ports.map Prod.fst
          = if n ∈ s.ports.map Prod.fst then s.ports.map Prod.fst
            else s.ports.map Prod.fst ++ [n]) ∧
        lookupKey (step s (Event.port_param n)).ports n
          = some { name := n, mode := some s.mode, data_type := some s.port_type,
                   data_size := s.port_size, default_value := none, desc := [] }) := by
  have hmain : ∀ evts : List Event,
      (interpret evts).map (fun m => m.ports.map VerilogParameter.name)
        = (modulePortNameLists evts).map firstOcc := by
    intro evts
    exact (c4_fold evts initState ([], []) (by simp [initState, firstOcc])
      (by simp [initState]) (by simp [initState])).2.2
  refine ⟨hmain, ?_, ?_⟩
  · intro evts m hm
    have h1 : m.ports.map VerilogParameter.name ∈
        (interpret evts).map (fun m => m.ports.map VerilogParameter.name) :=
      List.mem_map_of_mem _ hm
    rw [hmain evts] at h1
    obtain ⟨l, _, hl⟩ := List.mem_map.mp h1
    rw [← hl]
    exact firstOcc_nodup l
  · intro s n
    constructor
    · simpa [step] using odInsert_map_fst s.ports n
        { name := n, mode := some s.mode, data_type := some s.port_type,
          data_size := s.port_size, default_value := none, desc := [] }
    · simpa [step] using lookupKey_odInsert_self s.ports n
        { name := n, mode := some s.mode, data_type := some s.port_type,
          data_size := s.port_size, default_value := none, desc := [] }

/-- C5: `parse_verilog` is total — the scan of any input text, however
malformed, completes within as many steps as the text has characters (the
result is insensitive to any fuel at least that large), and it returns a
definite (possibly empty) list of module records. -/
theorem c5_theorem (text : String) (fuel : Nat) (h : text.data.length ≤ fuel) :
    interpret (lexRunF fuel none [LexState.root] text.data) = parse_verilog text := by
  unfold parse_verilog lexRun
  rw [lexRunF_stable fuel text.data.length none [LexState.root] text.data h
    (Nat.le_refl _)]

/-- Witness for C5 at a concrete malformed-free input and oversized fuel. -/
theorem c5_witness :
    interpret (lexRunF 64 none [LexState.root] ("module m\nendmodule\n").data)
      = parse_verilog ("module m\nendmodule\n") :=
  c5_theorem ("module m\nendmodule\n") 64 (by decide)

/-- C6: on `parameter integer N = 4, M = 8` inside one module both generics
`N` and `M` are emitted with data type `integer` — the sticky parameter
type set by the opener propagates across the comma-separated bare
`name = value` items. -/
theorem c6_theorem :
    (parse_verilog c6input).map (fun m =>
        (m.name, m.generics.map (fun g => (g.name, g.data_type, g.default_value))))
      = [(some ("foo"),
          [("N", some ("integer"), some ("4")),
           ("M", some ("integer"), some ("8"))])] := by
  decide

/-- C7: a `section_all` event appends `(param_index, title)` to the
parameter section list and `(port_index, title)` to the port section list,
each with its own running count; `end_module` converts both lists with
`dict(...)` into the record, and in that conversion the later title wins
for two entries with the same count key. -/
theorem c7_theorem :
    (∀ (s : PState) (t : String),
        (step s (Event.section_all t)).paramsections
          = s.paramsections ++ [(s.param_index, t)] ∧
        (step s (Event.section_all t)).portsections
          = s.portsections ++ [(s.port_index, t)]) ∧
    (∀ s : PState, (step s Event.end_module).objects = s.objects ++
        [{ name := s.name, kind := "module", generics := s.generics,
           ports := s.ports.map Prod.snd, paramsections := toDict s.paramsections,
           portsections := toDict s.portsections, desc := s.metacomments }]) ∧
    (∀ (l : List (Nat × String)) (k : Nat) (t : String),
        lookupKey (toDict (l ++ [(k, t)])) k = some t) := by
  refine ⟨fun s t => ⟨rfl, rfl⟩, fun s => rfl, fun l k t => ?_⟩
  rw [toDict_append_single]
  exact lookupKey_odInsert_self _ k t

/-- C8: a metacomment event arriving immediately after a `port_param`
appends its stripped text to that port's description inside the port map,
while the module-level metacomment buffer is left exactly as it was. -/
theorem c8_theorem :
    ∀ (s : PState) (n c : String),
      (step (step s (Event.port_param n)) (Event.metacomment c)).metacomments
        = s.metacomments ∧
      lookupKey (step (step s (Event.port_param n)) (Event.metacomment c)).ports n
        = some { name := n, mode := some s.mode, data_type := some s.port_type,
                 data_size := s.port_size, default_value := none,
                 desc := [pyStrip c] } := by
  intro s n c
  constructor
  · rfl
  · simp only [step]
    rw [lookupKey_updKey_self, lookupKey_odInsert_self]
    rfl

/-- C9: `is_verilog` holds exactly when the extension split off the path,
lowercased, is in the fixed set of `.vlog` and `.v`; in particular `.sv`
files are rejected and the comparison is case-insensitive. -/
theorem c9_theorem :
    (∀ f : String, is_verilog f = true ↔
        (pyLower (splitext f).2 = ".vlog" ∨ pyLower (splitext f).2 = ".v")) ∧
    is_verilog ("test.sv") = false ∧ is_verilog ("TEST.V") = true ∧
    is_verilog ("file.vlog") = true ∧ is_verilog ("file.Vlog") = true := by
  refine ⟨fun f => ?_, by decide, by decide, by decide, by decide⟩
  simp [is_verilog]

/-- C10: the running port count `port_index` is, after any event sequence,
at least the number of entries of the port map (every `port_param`
increments it, a re-declaration included), and on `c10input` — the same
port declared twice before a section marker — the emitted record holds one
distinct port but the port-section key `2`. -/
theorem c10_theorem :
    (∀ evts : List Event, (evts.foldl step initState).ports.length
        ≤ (evts.foldl step initState).port_index) ∧
    (∀ (s : PState) (n : String),
        (step s (Event.port_param n)).port_index = s.port_index + 1) ∧
    (parse_verilog c10input).map
        (fun m => (m.ports.map VerilogParameter.name, m.portsections))
      = [([("a" : String)], [(2, ("Grp" : String))])] := by
  refine ⟨fun evts => foldl_port_bound evts initState (by simp [initState]),
    fun s n => rfl, by decide⟩

end Hdlparse
